import Mathlib

/-!
Verification of the LAN relay core of the top-down shooter repository.

The relay server is the Socket.IO server embedded in `src/public/game.js`
(lines 462-485): a `clients` Map from socket id to a plain JS object
`{x, y, rot, hp, weapon}`, message handlers for `state`, `fire`,
`enemy_fire` and `disconnect`, a `welcome` unicast with a host flag
computed at connection time, and a 100ms `peers_state` broadcast of the
full registry.  `src/server.js` is a second server variant in the
repository (channels `playerJoin` / `playerMove` / `playerShoot` /
`disconnect` over a `gameState` object); its `playerShoot` and
`disconnect` handlers are also embedded here because several claims cite
them.

JS objects are modelled as association lists of (key, value) pairs where
lookup returns the overriding value; numbers are only stored and relayed
verbatim by this code (never computed on), so they are carried as `Int`.
-/

namespace Topdown

/-- JSVal models the JavaScript values that flow through the relay:
numbers, strings, booleans, `null`, `undefined`, arrays and plain
objects.  The relay never computes on numbers, it only stores and
forwards them, so `Int` stands in for the JS number type. -/
inductive JSVal where
  | num  : Int → JSVal
  | str  : String → JSVal
  | bool : Bool → JSVal
  | null : JSVal
  | undefined : JSVal
  | arr  : List JSVal → JSVal
  | obj  : List (String × JSVal) → JSVal

/-- Obj is the field list of a plain JS object.  The list order mirrors
override priority: `lookupKey` (below) returns the first binding for a
key, so an entry earlier in the list shadows a later one. -/
abbrev Obj := List (String × JSVal)

/-- lookupKey finds the value bound to a key in an association list,
first binding wins.  It models JS property access on objects and
`Map.get`. -/
def lookupKey {α β : Type} [BEq α] : List (α × β) → α → Option β
  | [], _ => none
  | (k, v) :: rest, key => if k == key then some v else lookupKey rest key

/-- setKey models `Map.set` / JS property assignment on an association
list: an existing binding for the key is replaced in place, otherwise
the binding is appended. -/
def setKey {α β : Type} [BEq α] : List (α × β) → α → β → List (α × β)
  | [], k, v => [(k, v)]
  | (k', v') :: rest, k, v =>
      if k' == k then (k, v) :: rest else (k', v') :: setKey rest k v

/-- delKey models `Map.delete` / the JS `delete` operator: every binding
for the key is removed; removing an absent key leaves the list as is. -/
def delKey {α β : Type} [BEq α] (m : List (α × β)) (k : α) : List (α × β) :=
  m.filter (fun p => !(p.1 == k))

/-- objGet is JS property read on a plain object. -/
def objGet (o : Obj) (k : String) : Option JSVal := lookupKey o k

/-- jsSpread cur st models the object literal `{...cur, ...st}`: the
result takes the value from st on every key st binds and the value from
cur elsewhere.  With first-binding-wins lookup this is the entries of st
in front of those of cur. -/
def jsSpread (cur st : Obj) : Obj := st ++ cur

/-- objField is JS property access that, like JS itself, yields
`undefined` for an absent key (used by the server.js bullet builder). -/
def objField (o : Obj) (k : String) : JSVal := (objGet o k).getD .undefined


/-- Emission records one `emit` performed by a handler: the channel
name, the list of socket ids it is delivered to, and the payload. -/
structure Emission where
  event : String
  recipients : List String
  payload : JSVal

/-- RelayState is the whole mutable state of the relay server embedded
in game.js: the set of live socket ids (what `io.engine.clientsCount`
and `socket.broadcast` range over), the `clients` Map (line 462), and
the host flag each connection was told in its `welcome` payload (the
flag is computed once at connect, line 465, and never mutated). -/
structure RelayState where
  connected : List String
  clients : List (String × Obj)
  hostFlag : List (String × Bool)

/-- initState is the server state at startup: no sockets, empty Map. -/
def initState : RelayState := ⟨[], [], []⟩

/-- defaultPeer is the spawn object from game.js line 466:
`{ x: 480, y: 320, rot: 0, hp: 6, weapon: "pistol" }`. -/
def defaultPeer : Obj :=
  [("x", .num 480), ("y", .num 320), ("rot", .num 0), ("hp", .num 6),
   ("weapon", .str "pistol")]

/-- othersOf models `socket.broadcast.emit` delivery: every live socket
except the emitting one. -/
def othersOf (s : RelayState) (origin : String) : List String :=
  s.connected.filter (fun j => !(j == origin))

/-- onConnect is the `io.on("connection")` handler, game.js lines
464-467.  `io.engine.clientsCount` already counts the new connection
when the handler runs, so the host flag is `(count after adding) == 1`;
then `clients.set(socket.id, defaults)` and a `welcome` unicast. -/
def onConnect (s : RelayState) (id : String) : RelayState × List Emission :=
  let connected := s.connected ++ [id]
  let isHost := connected.length == 1
  ({ connected := connected,
     clients := setKey s.clients id defaultPeer,
     hostFlag := s.hostFlag ++ [(id, isHost)] },
   [⟨"welcome", [id], .obj [("id", .str id), ("isHost", .bool isHost)]⟩])

/-- onState is the `socket.on("state")` handler, game.js line 469:
`const cur = clients.get(socket.id); if (!cur) return;
clients.set(socket.id, { ...cur, ...st });`. -/
def onState (s : RelayState) (id : String) (st : Obj) : RelayState × List Emission :=
  match lookupKey s.clients id with
  | none => (s, [])
  | some cur => ({ s with clients := setKey s.clients id (jsSpread cur st) }, [])

/-- onFire is the `socket.on("fire")` handler, game.js lines 471-475:
`if (!Array.isArray(shots)) return;
shots.forEach(s => socket.broadcast.emit("remote_fire", s));`. -/
def onFire (s : RelayState) (origin : String) (shots : JSVal) : RelayState × List Emission :=
  match shots with
  | .arr elems => (s, elems.map (fun sh => ⟨"remote_fire", othersOf s origin, sh⟩))
  | _ => (s, [])

/-- onEnemyFire is the `socket.on("enemy_fire")` handler, game.js line
477: `socket.broadcast.emit("enemy_fire", shots);` — one emission of the
whole payload, no array check, not delivered to the originator. -/
def onEnemyFire (s : RelayState) (origin : String) (shots : JSVal) : RelayState × List Emission :=
  (s, [⟨"enemy_fire", othersOf s origin, shots⟩])

/-- onDisconnect is the `socket.on("disconnect")` handler, game.js line
479: `clients.delete(socket.id);` — the socket also leaves the live set;
nothing is emitted. -/
def onDisconnect (s : RelayState) (id : String) : RelayState × List Emission :=
  ({ connected := s.connected.filter (fun j => !(j == id)),
     clients := delKey s.clients id,
     hostFlag := s.hostFlag }, [])

/-- peersSnapshot is the list built by the 100ms timer, game.js line
483: `Array.from(clients.entries()).map(([id, s]) => ({ id, ...s }))`.
In the literal `{ id, ...s }` the spread of `s` overrides the `id`
binding, so with first-binding-wins lookup the entry is the fields of
`s` in front of the `("id", id)` pair. -/
def peersSnapshot (s : RelayState) : List JSVal :=
  s.clients.map (fun p => .obj (p.2 ++ [("id", .str p.1)]))

/-- broadcastTick is the `setInterval` body, game.js lines 482-485:
`io.emit("peers_state", states)` delivered to every live socket. -/
def broadcastTick (s : RelayState) : RelayState × List Emission :=
  (s, [⟨"peers_state", s.connected, .arr (peersSnapshot s)⟩])

/-- Op enumerates the externally triggered transitions of the relay
server: a socket connecting, disconnecting, one of the three message
channels, or a firing of the 100ms broadcast timer. -/
inductive Op where
  | connect (id : String)
  | disconnect (id : String)
  | stateMsg (id : String) (payload : Obj)
  | fireMsg (id : String) (shots : JSVal)
  | enemyFireMsg (id : String) (shots : JSVal)
  | tick

/-- step dispatches one operation to its handler (the single-threaded
event loop runs handlers to completion one at a time). -/
def step (s : RelayState) : Op → RelayState × List Emission
  | .connect id => onConnect s id
  | .disconnect id => onDisconnect s id
  | .stateMsg id payload => onState s id payload
  | .fireMsg id shots => onFire s id shots
  | .enemyFireMsg id shots => onEnemyFire s id shots
  | .tick => broadcastTick s

/-- run folds a sequence of operations over the server state. -/
def run (s : RelayState) : List Op → RelayState
  | [] => s
  | op :: ops => run (step s op).1 ops

/-- okOp states the transport-layer guarantees an operation enjoys:
socket ids are unique per connection (a connect uses an id never seen
before), and disconnects and messages only happen on live sockets. -/
def okOp (s : RelayState) : Op → Bool
  | .connect id => (lookupKey s.hostFlag id).isNone
  | .disconnect id => s.connected.contains id
  | .stateMsg id _ => s.connected.contains id
  | .fireMsg id _ => s.connected.contains id
  | .enemyFireMsg id _ => s.connected.contains id
  | .tick => true

/-- okOps extends okOp along a sequence of operations. -/
def okOps (s : RelayState) : List Op → Bool
  | [] => true
  | op :: ops => okOp s op && okOps (step s op).1 ops

/-- flagOf reads the host flag a connection was assigned in its
`welcome` payload. -/
def flagOf (s : RelayState) (id : String) : Option Bool := lookupKey s.hostFlag id

/-- hostCount counts the currently connected peers whose assigned host
flag is `true`. -/
def hostCount (s : RelayState) : Nat :=
  (s.connected.filter (fun id => flagOf s id == some true)).length

/-- countConnects counts the connect operations in a sequence. -/
def countConnects : List Op → Nat
  | [] => 0
  | .connect _ :: ops => countConnects ops + 1
  | _ :: ops => countConnects ops

/-- countDisconnects counts the disconnect operations in a sequence. -/
def countDisconnects : List Op → Nat
  | [] => 0
  | .disconnect _ :: ops => countDisconnects ops + 1
  | _ :: ops => countDisconnects ops

/-- SrvState is the mutable state of the root `src/server.js` variant:
`gameState.players` and `gameState.bullets` (lines 14-19; `enemies` and
`pickups` are never written by any handler) together with the live
socket set that `io.emit` ranges over. -/
structure SrvState where
  connected : List String
  players : List (String × Obj)
  bullets : List (Int × Obj)

/-- shootBullet is the record stored and broadcast by the `playerShoot`
handler, server.js lines 57-66.  The bullet id `Date.now() +
Math.random()` is an external input here (clock and RNG nondeterminism
passed in by the caller). -/
def shootBullet (id : String) (bulletId : Int) (bulletData : Obj) : Obj :=
  [("id", .num bulletId),
   ("x", objField bulletData "x"), ("y", objField bulletData "y"),
   ("dx", objField bulletData "dx"), ("dy", objField bulletData "dy"),
   ("speed", objField bulletData "speed"),
   ("playerId", .str id)]

/-- onPlayerShoot is the `socket.on("playerShoot")` handler, server.js
lines 56-69: it stores the bullet record in `gameState.bullets` and
broadcasts it to all sockets via `io.emit("bulletFired", ...)`. -/
def onPlayerShoot (s : SrvState) (id : String) (bulletId : Int) (bulletData : Obj) :
    SrvState × List Emission :=
  let bullet := shootBullet id bulletId bulletData
  ({ s with bullets := setKey s.bullets bulletId bullet },
   [⟨"bulletFired", s.connected, .obj bullet⟩])

/-- onDisconnectSrv is the `socket.on("disconnect")` handler, server.js
lines 72-76: `delete gameState.players[socket.id];
io.emit("playerLeft", socket.id);` — the delete is a safe no-op on an
absent key, and the `playerLeft` broadcast is unconditional.  The
departing socket is no longer live, so `io.emit` reaches the others. -/
def onDisconnectSrv (s : SrvState) (id : String) : SrvState × List Emission :=
  let connected := s.connected.filter (fun j => !(j == id))
  ({ s with connected := connected, players := delKey s.players id },
   [⟨"playerLeft", connected, .str id⟩])

/-- noIdUpdates p ops holds when no `state` message applied to peer p in
the sequence carries an `id` field in its payload. -/
def noIdUpdates (p : String) (ops : List Op) : Bool :=
  ops.all (fun op =>
    match op with
    | .stateMsg q st => !(q == p) || (objGet st "id").isNone
    | _ => true)

/-- Inv collects the structural facts the transport layer and the
handlers maintain together: live socket ids are distinct, every live
socket was assigned a host flag at connect time, the Map keys are
exactly the live sockets in connection order, and at most one live
socket holds the host flag. -/
def Inv (s : RelayState) : Prop :=
  s.connected.Nodup ∧
  (∀ id ∈ s.connected, flagOf s id ≠ none) ∧
  s.clients.map Prod.fst = s.connected ∧
  hostCount s ≤ 1

section MapLemmas

set_option linter.unusedSectionVars false

variable {α β : Type} [BEq α] [LawfulBEq α]

theorem lookupKey_append (a b : List (α × β)) (k : α) :
    lookupKey (a ++ b) k = (lookupKey a k).orElse (fun _ => lookupKey b k) := by
  induction a with
  | nil => simp [lookupKey]
  | cons p rest ih =>
      obtain ⟨k', v⟩ := p
      by_cases h : k' = k
      · simp [lookupKey, h]
      · simp [lookupKey, h, ih]

theorem lookupKey_setKey_self (m : List (α × β)) (k : α) (v : β) :
    lookupKey (setKey m k v) k = some v := by
  induction m with
  | nil => simp [lookupKey, setKey]
  | cons p rest ih =>
      obtain ⟨k', v'⟩ := p
      by_cases h : k' = k
      · simp [lookupKey, setKey, h]
      · simp [lookupKey, setKey, h, ih]

theorem lookupKey_setKey_ne (m : List (α × β)) (k j : α) (v : β) (h : j ≠ k) :
    lookupKey (setKey m k v) j = lookupKey m j := by
  induction m with
  | nil =>
      have hj : (k == j) = false := beq_eq_false_iff_ne.mpr (fun hc => h hc.symm)
      simp [lookupKey, setKey, hj]
  | cons p rest ih =>
      obtain ⟨k', v'⟩ := p
      by_cases hk : k' = k
      · subst hk
        have hj : (k' == j) = false := beq_eq_false_iff_ne.mpr (fun hc => h hc.symm)
        simp [lookupKey, setKey, hj]
      · simp only [setKey, beq_iff_eq, hk, if_false]
        simp [lookupKey, ih]

theorem lookupKey_delKey_self (m : List (α × β)) (k : α) :
    lookupKey (delKey m k) k = none := by
  induction m with
  | nil => rfl
  | cons p rest ih =>
      obtain ⟨k', v'⟩ := p
      by_cases h : k' = k
      · simpa [delKey, h] using ih
      · simpa [delKey, lookupKey, h] using ih

theorem lookupKey_delKey_ne (m : List (α × β)) (k j : α) (h : j ≠ k) :
    lookupKey (delKey m k) j = lookupKey m j := by
  induction m with
  | nil => rfl
  | cons p rest ih =>
      obtain ⟨k', v'⟩ := p
      by_cases hk : k' = k
      · subst hk
        have hj : (k' == j) = false := beq_eq_false_iff_ne.mpr (fun hc => h hc.symm)
        simpa [delKey, lookupKey, List.filter_cons, hj] using ih
      · by_cases hj : k' = j
        · subst hj
          simp [delKey, lookupKey, List.filter_cons, hk]
        · simpa [delKey, lookupKey, List.filter_cons, hk, hj] using ih

theorem lookupKey_eq_none_iff (m : List (α × β)) (k : α) :
    lookupKey m k = none ↔ ∀ p ∈ m, p.1 ≠ k := by
  induction m with
  | nil => simp [lookupKey]
  | cons p rest ih =>
      obtain ⟨k', v'⟩ := p
      by_cases h : k' = k
      · simp [lookupKey, h]
      · simp [lookupKey, h, ih]

theorem lookupKey_mem {m : List (α × β)} {k : α} {v : β}
    (h : lookupKey m k = some v) : (k, v) ∈ m := by
  induction m with
  | nil => simp [lookupKey] at h
  | cons p rest ih =>
      obtain ⟨k', v'⟩ := p
      by_cases hk : k' = k
      · subst hk
        simp only [lookupKey, beq_self_eq_true, if_true, Option.some.injEq] at h
        subst h
        exact List.mem_cons_self _ _
      · simp only [lookupKey, beq_iff_eq, hk, if_false] at h
        exact List.mem_cons_of_mem _ (ih h)

theorem mem_setKey {m : List (α × β)} {k : α} {v : β} {p : α × β}
    (h : p ∈ setKey m k v) : p ∈ m ∨ p = (k, v) := by
  induction m with
  | nil => simpa [setKey] using h
  | cons q rest ih =>
      obtain ⟨k', v'⟩ := q
      by_cases hk : k' = k
      · simp only [setKey, hk, beq_self_eq_true, if_true, List.mem_cons] at h
        rcases h with h | h
        · right; exact h
        · left; exact List.mem_cons_of_mem _ h
      · simp only [setKey, beq_iff_eq, hk, if_false, List.mem_cons] at h
        rcases h with h | h
        · left; simp [h]
        · rcases ih h with h' | h'
          · left; exact List.mem_cons_of_mem _ h'
          · right; exact h'

theorem mem_delKey {m : List (α × β)} {k : α} {p : α × β}
    (h : p ∈ delKey m k) : p ∈ m :=
  List.mem_of_mem_filter h

theorem keys_setKey_of_some (m : List (α × β)) (k : α) (v : β)
    (h : lookupKey m k ≠ none) :
    (setKey m k v).map Prod.fst = m.map Prod.fst := by
  induction m with
  | nil => simp [lookupKey] at h
  | cons p rest ih =>
      obtain ⟨k', v'⟩ := p
      by_cases hk : k' = k
      · simp [setKey, hk]
      · simp only [lookupKey, beq_iff_eq, hk, if_false] at h
        simp [setKey, hk, ih h]

theorem setKey_of_none (m : List (α × β)) (k : α) (v : β)
    (h : lookupKey m k = none) :
    setKey m k v = m ++ [(k, v)] := by
  induction m with
  | nil => simp [setKey]
  | cons p rest ih =>
      obtain ⟨k', v'⟩ := p
      by_cases hk : k' = k
      · simp [lookupKey, hk] at h
      · simp only [lookupKey, beq_iff_eq, hk, if_false] at h
        simp [setKey, hk, ih h]

theorem length_setKey_of_some (m : List (α × β)) (k : α) (v : β)
    (h : lookupKey m k ≠ none) :
    (setKey m k v).length = m.length := by
  induction m with
  | nil => simp [lookupKey] at h
  | cons p rest ih =>
      obtain ⟨k', v'⟩ := p
      by_cases hk : k' = k
      · simp [setKey, hk]
      · simp only [lookupKey, beq_iff_eq, hk, if_false] at h
        simp [setKey, hk, ih h]

theorem keys_delKey (m : List (α × β)) (k : α) :
    (delKey m k).map Prod.fst = (m.map Prod.fst).filter (fun j => !(j == k)) := by
  induction m with
  | nil => rfl
  | cons p rest ih =>
      obtain ⟨k', v'⟩ := p
      by_cases hk : k' = k
      · simp [delKey, hk, List.filter_cons] at ih ⊢
        exact ih
      · simp [delKey, hk, List.filter_cons] at ih ⊢
        exact ih

theorem length_delKey_of_nodup (m : List (α × β)) (k : α)
    (hd : (m.map Prod.fst).Nodup) (h : lookupKey m k ≠ none) :
    (delKey m k).length + 1 = m.length := by
  induction m with
  | nil => simp [lookupKey] at h
  | cons p rest ih =>
      obtain ⟨k', v'⟩ := p
      simp only [List.map_cons, List.nodup_cons] at hd
      by_cases hk : k' = k
      · subst hk
        have heq : delKey ((k', v') :: rest) k' = delKey rest k' := by
          simp [delKey, List.filter_cons]
        have hall : ∀ p ∈ rest, (!(p.1 == k')) = true := by
          intro q hq
          have hmem : q.1 ∈ rest.map Prod.fst := List.mem_map_of_mem _ hq
          have hne : q.1 ≠ k' := fun hc => hd.1 (hc ▸ hmem)
          simp [hne]
        have hself : delKey rest k' = rest := List.filter_eq_self.mpr hall
        simp [heq, hself]
      · simp only [lookupKey, beq_iff_eq, hk, if_false] at h
        have hih := ih hd.2 h
        have hkeep : (!(((k', v') : α × β).1 == k)) = true := by simp [hk]
        simp only [delKey, List.filter_cons, hkeep, if_true, List.length_cons]
        simp only [delKey] at hih
        omega

end MapLemmas

/-- objGet_jsSpread: reading a key of `{...cur, ...st}` yields the value
from st when st binds the key and the value from cur otherwise. -/
theorem objGet_jsSpread (cur st : Obj) (k : String) :
    objGet (jsSpread cur st) k = (objGet st k).orElse (fun _ => objGet cur k) :=
  lookupKey_append st cur k

theorem lookupKey_ne_none_of_mem_keys {α β : Type} [BEq α] [LawfulBEq α]
    {m : List (α × β)} {k : α} (h : k ∈ m.map Prod.fst) :
    lookupKey m k ≠ none := by
  intro hn
  rw [lookupKey_eq_none_iff] at hn
  obtain ⟨p, hp, hpk⟩ := List.mem_map.mp h
  exact hn p hp hpk

theorem flagOf_onConnect_mem (s : RelayState) (id j : String) (hj : flagOf s j ≠ none) :
    flagOf ((onConnect s id).1) j = flagOf s j := by
  simp only [flagOf, onConnect]
  rw [lookupKey_append]
  cases hl : lookupKey s.hostFlag j with
  | none => exact absurd hl hj
  | some b => rfl

theorem flagOf_onConnect_self (s : RelayState) (id : String) (h : flagOf s id = none) :
    flagOf ((onConnect s id).1) id = some ((s.connected ++ [id]).length == 1) := by
  simp only [flagOf, onConnect]
  rw [lookupKey_append]
  simp only [flagOf] at h
  rw [h]
  simp [lookupKey]

theorem onFire_state_eq (s : RelayState) (origin : String) (shots : JSVal) :
    (onFire s origin shots).1 = s := by
  cases shots <;> rfl

theorem onState_connected_eq (s : RelayState) (id : String) (st : Obj) :
    ((onState s id st).1).connected = s.connected := by
  unfold onState
  cases lookupKey s.clients id <;> rfl

theorem onState_hostFlag_eq (s : RelayState) (id : String) (st : Obj) :
    ((onState s id st).1).hostFlag = s.hostFlag := by
  unfold onState
  cases lookupKey s.clients id <;> rfl

theorem onState_keys_eq (s : RelayState) (id : String) (st : Obj) :
    ((onState s id st).1).clients.map Prod.fst = s.clients.map Prod.fst := by
  unfold onState
  cases hl : lookupKey s.clients id with
  | none => rfl
  | some cur => exact keys_setKey_of_some _ _ _ (by simp [hl])

theorem onState_length_eq (s : RelayState) (id : String) (st : Obj) :
    ((onState s id st).1).clients.length = s.clients.length := by
  unfold onState
  cases hl : lookupKey s.clients id with
  | none => rfl
  | some cur => exact length_setKey_of_some _ _ _ (by simp [hl])

theorem step_inv {s : RelayState} {op : Op} (hinv : Inv s) (hok : okOp s op = true) :
    Inv (step s op).1 := by
  obtain ⟨hnd, hfl, hkeys, hcount⟩ := hinv
  cases op with
  | connect id =>
      have hnew : flagOf s id = none := by
        simpa [okOp, flagOf, Option.isNone_iff_eq_none] using hok
      have hnotconn : id ∉ s.connected := fun hmem => hfl id hmem hnew
      have hflag_old : ∀ j ∈ s.connected,
          flagOf ((onConnect s id).1) j = flagOf s j :=
        fun j hj => flagOf_onConnect_mem s id j (hfl j hj)
      have hflag_new : flagOf ((onConnect s id).1) id
          = some ((s.connected ++ [id]).length == 1) := flagOf_onConnect_self s id hnew
      have hc2 : ((onConnect s id).1).connected = s.connected ++ [id] := rfl
      have hcl : lookupKey s.clients id = none := by
        rw [lookupKey_eq_none_iff]
        intro p hp hc
        apply hnotconn
        have hm : p.1 ∈ s.clients.map Prod.fst := List.mem_map_of_mem _ hp
        rw [hkeys] at hm
        exact hc ▸ hm
      show Inv ((onConnect s id).1)
      refine ⟨?_, ?_, ?_, ?_⟩
      · show ((onConnect s id).1).connected.Nodup
        rw [hc2, List.nodup_append]
        refine ⟨hnd, List.nodup_singleton id, ?_⟩
        intro a ha hb
        rw [List.mem_singleton] at hb
        exact hnotconn (hb ▸ ha)
      · intro j hj
        rw [hc2, List.mem_append, List.mem_singleton] at hj
        rcases hj with hj | hj
        · rw [hflag_old j hj]; exact hfl j hj
        · subst hj
          rw [hflag_new]
          simp
      · show ((onConnect s id).1).clients.map Prod.fst = ((onConnect s id).1).connected
        rw [hc2]
        have hset : ((onConnect s id).1).clients = setKey s.clients id defaultPeer := rfl
        rw [hset, setKey_of_none _ _ _ hcl]
        simp [hkeys]
      · show hostCount ((onConnect s id).1) ≤ 1
        unfold hostCount
        rw [hc2, List.filter_append]
        have hfc : (s.connected.filter
              (fun j => flagOf ((onConnect s id).1) j == some true))
            = s.connected.filter (fun j => flagOf s j == some true) :=
          List.filter_congr (fun j hj => by rw [hflag_old j hj])
        rw [hfc]
        by_cases hemp : s.connected = []
        · rw [hemp]
          have hpid : (flagOf ((onConnect s id).1) id == some true) = true := by
            rw [hflag_new, hemp]
            simp
          simp [List.filter_cons, hpid]
        · have hlen : s.connected.length ≠ 0 :=
            fun h => hemp (List.length_eq_zero.mp h)
          have hfalse : ((s.connected ++ [id]).length == 1) = false := by
            simp only [List.length_append, List.length_singleton, beq_eq_false_iff_ne,
              ne_eq]
            omega
          have hpid : (flagOf ((onConnect s id).1) id == some true) = false := by
            rw [hflag_new, hfalse]
            rfl
          rw [show ([id].filter (fun j => flagOf ((onConnect s id).1) j == some true))
              = [] from by simp [List.filter_cons, hpid]]
          simpa [hostCount] using hcount
  | disconnect id =>
      refine ⟨?_, ?_, ?_, ?_⟩
      · exact hnd.filter _
      · intro j hj
        have hj' : j ∈ s.connected := List.mem_of_mem_filter hj
        exact hfl j hj'
      · show (delKey s.clients id).map Prod.fst
            = s.connected.filter (fun j => !(j == id))
        rw [keys_delKey, hkeys]
      · show hostCount ((onDisconnect s id).1) ≤ 1
        unfold hostCount
        have hsub : ((s.connected.filter (fun j => !(j == id))).filter
              (fun j => flagOf s j == some true)).Sublist
            (s.connected.filter (fun j => flagOf s j == some true)) :=
          (List.filter_sublist s.connected).filter _
        exact le_trans hsub.length_le hcount
  | stateMsg id payload =>
      show Inv ((onState s id payload).1)
      refine ⟨?_, ?_, ?_, ?_⟩
      · rw [onState_connected_eq]
        exact hnd
      · intro j hj
        rw [onState_connected_eq] at hj
        show flagOf ((onState s id payload).1) j ≠ none
        unfold flagOf
        rw [onState_hostFlag_eq]
        exact hfl j hj
      · rw [onState_keys_eq, onState_connected_eq]
        exact hkeys
      · show hostCount ((onState s id payload).1) ≤ 1
        unfold hostCount flagOf
        rw [onState_connected_eq, onState_hostFlag_eq]
        exact hcount
  | fireMsg id shots =>
      show Inv ((onFire s id shots).1)
      rw [onFire_state_eq]
      exact ⟨hnd, hfl, hkeys, hcount⟩
  | enemyFireMsg id shots => exact ⟨hnd, hfl, hkeys, hcount⟩
  | tick => exact ⟨hnd, hfl, hkeys, hcount⟩

theorem run_inv {s : RelayState} {ops : List Op} (hinv : Inv s)
    (hok : okOps s ops = true) : Inv (run s ops) := by
  induction ops generalizing s with
  | nil => exact hinv
  | cons op rest ih =>
      simp only [okOps, Bool.and_eq_true] at hok
      exact ih (step_inv hinv hok.1) hok.2

theorem inv_init : Inv initState := by
  refine ⟨List.nodup_nil, ?_, rfl, ?_⟩
  · intro id hid
    simp [initState] at hid
  · simp [hostCount, initState]

theorem run_length {s : RelayState} {ops : List Op} (hinv : Inv s)
    (hok : okOps s ops = true) :
    (run s ops).clients.length + countDisconnects ops
      = s.clients.length + countConnects ops := by
  induction ops generalizing s with
  | nil => simp [run, countConnects, countDisconnects]
  | cons op rest ih =>
      simp only [okOps, Bool.and_eq_true] at hok
      have hrest := ih (step_inv hinv hok.1) hok.2
      obtain ⟨hnd, hfl, hkeys, hcount⟩ := hinv
      cases op with
      | connect id =>
          have hnew : flagOf s id = none := by
            simpa [okOp, flagOf, Option.isNone_iff_eq_none] using hok.1
          have hnotconn : id ∉ s.connected := fun hmem => hfl id hmem hnew
          have hcl : lookupKey s.clients id = none := by
            rw [lookupKey_eq_none_iff]
            intro p hp hc
            apply hnotconn
            have hm : p.1 ∈ s.clients.map Prod.fst := List.mem_map_of_mem _ hp
            rw [hkeys] at hm
            exact hc ▸ hm
          have hlen : (step s (.connect id)).1.clients.length
              = s.clients.length + 1 := by
            show (setKey s.clients id defaultPeer).length = _
            rw [setKey_of_none _ _ _ hcl]
            simp
          simp only [run]
          rw [show countDisconnects (Op.connect id :: rest)
              = countDisconnects rest from rfl,
            show countConnects (Op.connect id :: rest)
              = countConnects rest + 1 from rfl]
          omega
      | disconnect id =>
          have hmem : id ∈ s.connected := by
            have h1 := hok.1
            simp only [okOp, List.contains] at h1
            exact List.elem_iff.mp h1
          have hkmem : id ∈ s.clients.map Prod.fst := by rw [hkeys]; exact hmem
          have hknd : (s.clients.map Prod.fst).Nodup := by rw [hkeys]; exact hnd
          have hdel : (delKey s.clients id).length + 1 = s.clients.length :=
            length_delKey_of_nodup _ _ hknd (lookupKey_ne_none_of_mem_keys hkmem)
          have hlen : (step s (.disconnect id)).1.clients.length + 1
              = s.clients.length := hdel
          simp only [run]
          rw [show countDisconnects (Op.disconnect id :: rest)
              = countDisconnects rest + 1 from rfl,
            show countConnects (Op.disconnect id :: rest)
              = countConnects rest from rfl]
          omega
      | stateMsg id payload =>
          have hlen := onState_length_eq s id payload
          simp only [run, step] at hrest ⊢
          rw [show countDisconnects (Op.stateMsg id payload :: rest)
              = countDisconnects rest from rfl,
            show countConnects (Op.stateMsg id payload :: rest)
              = countConnects rest from rfl]
          omega
      | fireMsg id shots =>
          simp only [run, step] at hrest ⊢
          rw [onFire_state_eq] at hrest ⊢
          rw [show countDisconnects (Op.fireMsg id shots :: rest)
              = countDisconnects rest from rfl,
            show countConnects (Op.fireMsg id shots :: rest)
              = countConnects rest from rfl]
          omega
      | enemyFireMsg id shots =>
          simp only [run, step, onEnemyFire] at hrest ⊢
          rw [show countDisconnects (Op.enemyFireMsg id shots :: rest)
              = countDisconnects rest from rfl,
            show countConnects (Op.enemyFireMsg id shots :: rest)
              = countConnects rest from rfl]
          omega
      | tick =>
          simp only [run, step, broadcastTick] at hrest ⊢
          rw [show countDisconnects (Op.tick :: rest)
              = countDisconnects rest from rfl,
            show countConnects (Op.tick :: rest)
              = countConnects rest from rfl]
          omega

theorem step_noId {p : String} {s : RelayState} {op : Op}
    (hs : ∀ pr ∈ s.clients, pr.1 = p → objGet pr.2 "id" = none)
    (hop : (match op with
      | .stateMsg q st => !(q == p) || (objGet st "id").isNone
      | _ => true) = true) :
    ∀ pr ∈ (step s op).1.clients, pr.1 = p → objGet pr.2 "id" = none := by
  cases op with
  | connect id =>
      intro pr hpr hprp
      rcases mem_setKey hpr with h | h
      · exact hs pr h hprp
      · rw [h]
        rfl
  | disconnect id =>
      intro pr hpr hprp
      exact hs pr (mem_delKey hpr) hprp
  | stateMsg q st =>
      intro pr hpr hprp
      cases hl : lookupKey s.clients q with
      | none =>
          simp only [step, onState, hl] at hpr
          exact hs pr hpr hprp
      | some cur =>
          simp only [step, onState, hl] at hpr
          rcases mem_setKey hpr with h | h
          · exact hs pr h hprp
          · have hq : q = p := by
              have h1 : pr.1 = q := by rw [h]
              rw [← h1]
              exact hprp
            have hst : objGet st "id" = none := by
              rw [hq] at hop
              simp only [beq_self_eq_true, Bool.not_true, Bool.false_or,
                Option.isNone_iff_eq_none] at hop
              exact hop
            have hcur : objGet cur "id" = none :=
              hs (q, cur) (lookupKey_mem hl) hq
            rw [h]
            show objGet (jsSpread cur st) "id" = none
            rw [objGet_jsSpread, hst]
            exact hcur
  | fireMsg q shots =>
      intro pr hpr hprp
      rw [show (step s (Op.fireMsg q shots)).1 = s from onFire_state_eq s q shots] at hpr
      exact hs pr hpr hprp
  | enemyFireMsg q shots =>
      intro pr hpr hprp
      exact hs pr hpr hprp
  | tick =>
      intro pr hpr hprp
      exact hs pr hpr hprp

theorem run_noId {p : String} {ops : List Op} :
    ∀ {s : RelayState},
      (∀ pr ∈ s.clients, pr.1 = p → objGet pr.2 "id" = none) →
      noIdUpdates p ops = true →
      ∀ pr ∈ (run s ops).clients, pr.1 = p → objGet pr.2 "id" = none := by
  induction ops with
  | nil => exact fun hs _ => hs
  | cons op rest ih =>
      intro s hs hok
      simp only [noIdUpdates, List.all_cons, Bool.and_eq_true] at hok
      exact ih (step_noId hs hok.1) hok.2

/-- C1 fails on the code: the enemy_fire handler (game.js line 477) has
no array check and no per-shot fan-out, and `socket.broadcast.emit`
excludes the originator.  At a concrete two-peer state with originator
"A", a non-array payload — which the claim says is silently dropped
with no message emitted — is relayed as one enemy_fire message, and its
delivery list ["B"] excludes the originator "A", whereas the claim says
delivery includes the originator. -/
theorem enemy_fire_claim_counterexample :
    (onEnemyFire ⟨["A", "B"], [("A", defaultPeer), ("B", defaultPeer)],
        [("A", true), ("B", false)]⟩ "A" (.str "junk")).2
      = [⟨"enemy_fire", ["B"], .str "junk"⟩] ∧
    (onEnemyFire ⟨["A", "B"], [("A", defaultPeer), ("B", defaultPeer)],
        [("A", true), ("B", false)]⟩ "A" (.str "junk")).2 ≠ [] ∧
    "A" ∉ (["B"] : List String) := by
  refine ⟨rfl, ?_, by decide⟩
  intro hc
  rw [show (onEnemyFire ⟨["A", "B"], [("A", defaultPeer), ("B", defaultPeer)],
      [("A", true), ("B", false)]⟩ "A" (.str "junk")).2
      = [⟨"enemy_fire", ["B"], .str "junk"⟩] from rfl] at hc
  exact List.cons_ne_nil _ _ hc

/-- C1 amended: for every server state, originator and payload,
onEnemyFire performs no validation and relays the payload verbatim —
array or not — as a single enemy_fire message (not one message per
shot), delivered to exactly the connected peers other than the
originator (the same delivery set as onFire), leaving the server state
unchanged. -/
theorem enemy_fire_relay_semantics (s : RelayState) (A : String) (payload : JSVal) :
    onEnemyFire s A payload = (s, [⟨"enemy_fire", othersOf s A, payload⟩]) ∧
    (∀ j, j ∈ othersOf s A ↔ j ∈ s.connected ∧ j ≠ A) := by
  refine ⟨rfl, ?_⟩
  intro j
  simp [othersOf, List.mem_filter]

/-- C2 fails on the code: the server.js disconnect handler (lines
72-76) broadcasts playerLeft unconditionally.  At a concrete state
where socket "Z" is live but not in the players registry, disconnecting
"Z" leaves the registry unchanged and does not throw, yet still emits a
playerLeft notification carrying "Z", contradicting the claim that no
peer-left notification is emitted for an unregistered id. -/
theorem disconnect_claim_counterexample :
    lookupKey (SrvState.players ⟨["A", "Z"], [("A", defaultPeer)], []⟩) "Z" = none ∧
    (onDisconnectSrv ⟨["A", "Z"], [("A", defaultPeer)], []⟩ "Z").1.players
      = [("A", defaultPeer)] ∧
    (onDisconnectSrv ⟨["A", "Z"], [("A", defaultPeer)], []⟩ "Z").2
      = [⟨"playerLeft", ["A"], .str "Z"⟩] ∧
    (onDisconnectSrv ⟨["A", "Z"], [("A", defaultPeer)], []⟩ "Z").2 ≠ [] := by
  refine ⟨rfl, rfl, rfl, ?_⟩
  intro hc
  rw [show (onDisconnectSrv ⟨["A", "Z"], [("A", defaultPeer)], []⟩ "Z").2
      = [⟨"playerLeft", ["A"], .str "Z"⟩] from rfl] at hc
  exact List.cons_ne_nil _ _ hc

/-- C2 amended: onDisconnect (server.js lines 72-76) removes the registry
entry of the id when the id is registered and leaves every other entry
untouched; for an unregistered id it does not throw and leaves the
registry unchanged; in both cases it unconditionally broadcasts a
playerLeft notification carrying the id to the remaining connected
peers (emission is not guarded by registration). -/
theorem disconnect_behavior (s : SrvState) (id : String) :
    (onDisconnectSrv s id).2
      = [⟨"playerLeft", (onDisconnectSrv s id).1.connected, .str id⟩] ∧
    lookupKey (onDisconnectSrv s id).1.players id = none ∧
    (∀ j, j ≠ id → lookupKey (onDisconnectSrv s id).1.players j
      = lookupKey s.players j) ∧
    (lookupKey s.players id = none →
      (onDisconnectSrv s id).1.players = s.players) := by
  refine ⟨rfl, lookupKey_delKey_self _ _, ?_, ?_⟩
  · intro j hj
    exact lookupKey_delKey_ne _ _ _ hj
  · intro h
    show delKey s.players id = s.players
    unfold delKey
    apply List.filter_eq_self.mpr
    intro p hp
    have hne := (lookupKey_eq_none_iff _ _).mp h p hp
    simp [hne]

theorem disconnect_behavior_witness :
    lookupKey (onDisconnectSrv ⟨["A", "B"],
        [("A", defaultPeer), ("B", defaultPeer)], []⟩ "A").1.players "B"
      = some defaultPeer ∧
    (onDisconnectSrv ⟨["A", "Z"], [("A", defaultPeer)], []⟩ "Z").1.players
      = [("A", defaultPeer)] :=
  ⟨((disconnect_behavior ⟨["A", "B"], [("A", defaultPeer), ("B", defaultPeer)],
      []⟩ "A").2.2.1 "B" (by decide)).trans rfl,
   (disconnect_behavior ⟨["A", "Z"], [("A", defaultPeer)], []⟩ "Z").2.2.2 rfl⟩

/-- C3: onFire with an array payload of n shot records leaves the
server state unchanged and emits exactly n remote_fire messages, one
per shot in payload order, each carrying its shot record unmodified and
each delivered to exactly the connected peers other than the
originator; a payload that is not an array is silently dropped — state
unchanged and no message emitted. -/
theorem fire_relay_spec (s : RelayState) (A : String) :
    (∀ shots : List JSVal,
       (onFire s A (.arr shots)).1 = s ∧
       (onFire s A (.arr shots)).2
         = shots.map (fun sh => ⟨"remote_fire", othersOf s A, sh⟩) ∧
       ((onFire s A (.arr shots)).2).length = shots.length ∧
       (∀ j, j ∈ othersOf s A ↔ j ∈ s.connected ∧ j ≠ A)) ∧
    (∀ v : JSVal, (∀ l, v ≠ .arr l) → onFire s A v = (s, [])) := by
  constructor
  · intro shots
    refine ⟨rfl, rfl, by simp [onFire], ?_⟩
    intro j
    simp [othersOf, List.mem_filter]
  · intro v hv
    cases v with
    | arr l => exact absurd rfl (hv l)
    | num n => rfl
    | str x => rfl
    | bool b => rfl
    | null => rfl
    | undefined => rfl
    | obj o => rfl

theorem fire_relay_spec_witness :
    ((onFire ⟨["A", "B", "C"], [], []⟩ "A"
        (.arr [.num 1, .num 2, .num 3])).2).length = 3 ∧
    onFire ⟨["A", "B"], [], []⟩ "A" (.str "junk") = (⟨["A", "B"], [], []⟩, []) :=
  ⟨((fire_relay_spec ⟨["A", "B", "C"], [], []⟩ "A").1
      [.num 1, .num 2, .num 3]).2.2.1.trans rfl,
   (fire_relay_spec ⟨["A", "B"], [], []⟩ "A").2 (.str "junk")
     (fun _ h => JSVal.noConfusion h)⟩

/-- C4: every invocation of broadcastTick leaves the server state
unchanged and emits exactly one peers_state message delivered to every
connected peer (so each peer also receives its own entry); the payload
is the full list of {id, ...PeerState} entries, one per registered peer
in registry order regardless of what changed, and each entry carries
every stored field value of its peer verbatim. -/
theorem broadcast_tick_spec (s : RelayState) :
    (broadcastTick s).1 = s ∧
    (broadcastTick s).2
      = [⟨"peers_state", s.connected, .arr (peersSnapshot s)⟩] ∧
    (peersSnapshot s).length = s.clients.length ∧
    (∀ (i : Nat) (pr : String × Obj), s.clients[i]? = some pr →
       (peersSnapshot s)[i]? = some (.obj (pr.2 ++ [("id", .str pr.1)])) ∧
       ∀ k v, objGet pr.2 k = some v →
         objGet (pr.2 ++ [("id", .str pr.1)]) k = some v) := by
  refine ⟨rfl, rfl, by simp [peersSnapshot], ?_⟩
  intro i pr hpr
  constructor
  · simp [peersSnapshot, List.getElem?_map, hpr]
  · intro k v hv
    show lookupKey (pr.2 ++ [("id", JSVal.str pr.1)]) k = some v
    rw [lookupKey_append]
    rw [show objGet pr.2 k = lookupKey pr.2 k from rfl] at hv
    rw [hv]
    rfl

theorem broadcast_tick_spec_witness :
    (peersSnapshot ⟨["A"], [("A", defaultPeer)], [("A", true)]⟩)[0]?
      = some (.obj (defaultPeer ++ [("id", .str "A")])) :=
  ((broadcast_tick_spec ⟨["A"], [("A", defaultPeer)], [("A", true)]⟩).2.2.2
    0 ("A", defaultPeer) rfl).1

/-- C5 fails on the code for the server.js variant cited by the claim:
the playerShoot relay stores the shot record in gameState.bullets, so
the server state after the relay differs from the state before it and
the record persists (no handler deletes bullets).  Concretely, from a
state with empty bullets a single playerShoot leaves a stored bullet
record behind. -/
theorem fire_ephemeral_counterexample :
    (onPlayerShoot ⟨["A"], [("A", defaultPeer)], []⟩ "A" 42
        [("x", .num 1), ("y", .num 2), ("dx", .num 0), ("dy", .num 1),
         ("speed", .num 600)]).1.bullets
      = [(42, shootBullet "A" 42
          [("x", .num 1), ("y", .num 2), ("dx", .num 0), ("dy", .num 1),
           ("speed", .num 600)])] ∧
    (onPlayerShoot ⟨["A"], [("A", defaultPeer)], []⟩ "A" 42
        [("x", .num 1), ("y", .num 2), ("dx", .num 0), ("dy", .num 1),
         ("speed", .num 600)]).1.bullets
      ≠ SrvState.bullets ⟨["A"], [("A", defaultPeer)], []⟩ := by
  refine ⟨rfl, ?_⟩
  intro hc
  rw [show (onPlayerShoot ⟨["A"], [("A", defaultPeer)], []⟩ "A" 42
      [("x", .num 1), ("y", .num 2), ("dx", .num 0), ("dy", .num 1),
       ("speed", .num 600)]).1.bullets
      = [(42, shootBullet "A" 42
          [("x", .num 1), ("y", .num 2), ("dx", .num 0), ("dy", .num 1),
           ("speed", .num 600)])] from rfl] at hc
  exact List.cons_ne_nil _ _ hc

/-- C5 amended: in the embedded relay server (game.js) the fire and
enemy_fire relays leave the entire server state unchanged — nothing is
persisted; in the server.js variant, by contrast, the playerShoot relay
stores the bullet record under its bullet id in gameState.bullets
(players untouched) where it can still be read back after the relay,
and the only other state-mutating handler modelled (disconnect) never
removes bullets. -/
theorem fire_events_ephemeral :
    (∀ (s : RelayState) (A : String) (v : JSVal), (onFire s A v).1 = s) ∧
    (∀ (s : RelayState) (A : String) (v : JSVal), (onEnemyFire s A v).1 = s) ∧
    (∀ (s : SrvState) (id : String) (bid : Int) (bd : Obj),
       (onPlayerShoot s id bid bd).1.players = s.players ∧
       lookupKey (onPlayerShoot s id bid bd).1.bullets bid
         = some (shootBullet id bid bd)) ∧
    (∀ (s : SrvState) (id : String),
       (onDisconnectSrv s id).1.bullets = s.bullets) := by
  refine ⟨fun s A v => onFire_state_eq s A v, fun s A v => rfl,
    fun s id bid bd => ⟨rfl, lookupKey_setKey_self _ _ _⟩,
    fun s id => rfl⟩

/-- C6: starting from the empty registry, immediately after the first
connection exactly one connected peer holds the host flag; along every
transport-valid operation sequence, at every reachable state at most
one currently connected peer holds the host flag; and a disconnect
never rewrites any stored host flag, so no re-election takes place when
the host leaves. -/
theorem host_flag_unique :
    (∀ id, hostCount ((step initState (Op.connect id)).1) = 1) ∧
    (∀ ops, okOps initState ops = true → hostCount (run initState ops) ≤ 1) ∧
    (∀ s id, ((step s (Op.disconnect id)).1).hostFlag = s.hostFlag) := by
  refine ⟨?_, ?_, ?_⟩
  · intro id
    show hostCount ((onConnect initState id).1) = 1
    simp [hostCount, onConnect, initState, flagOf, lookupKey, List.filter_cons]
  · intro ops hok
    exact (run_inv inv_init hok).2.2.2
  · intro s id
    rfl

theorem host_flag_unique_witness :
    hostCount ((step initState (Op.connect "A")).1) = 1 ∧
    okOps initState [Op.connect "A", Op.connect "B", Op.disconnect "A"] = true ∧
    hostCount (run initState
      [Op.connect "A", Op.connect "B", Op.disconnect "A"]) ≤ 1 :=
  ⟨host_flag_unique.1 "A", by decide,
   host_flag_unique.2.1 [Op.connect "A", Op.connect "B", Op.disconnect "A"]
     (by decide)⟩

/-- C7: along every transport-valid operation sequence from the empty
registry (connect ids globally distinct, disconnects only for live
ids), the registry size equals the number of connects minus the number
of disconnects seen so far — no leaked entries, no double removal. -/
theorem registry_size_conservation (ops : List Op)
    (hok : okOps initState ops = true) :
    ((run initState ops).clients.length : Int)
      = (countConnects ops : Int) - (countDisconnects ops : Int) := by
  have h := run_length inv_init hok
  have h0 : initState.clients.length = 0 := rfl
  omega

theorem registry_size_conservation_witness :
    okOps initState [Op.connect "A", Op.connect "B", Op.disconnect "A"] = true ∧
    ((run initState [Op.connect "A", Op.connect "B",
        Op.disconnect "A"]).clients.length : Int)
      = (countConnects [Op.connect "A", Op.connect "B",
          Op.disconnect "A"] : Int)
        - (countDisconnects [Op.connect "A", Op.connect "B",
            Op.disconnect "A"] : Int) :=
  ⟨by decide,
   registry_size_conservation [Op.connect "A", Op.connect "B", Op.disconnect "A"]
     (by decide)⟩

/-- C8: onStateUpdate for a registered id stores the shallow merge of
the payload over the previous PeerState — every field present in the
payload takes the value given in the payload, every field absent from the
payload keeps its previous value — while the entry of every other id is
untouched
and nothing is emitted; for an unregistered id the call is a complete
no-op. -/
theorem state_update_merge_spec (s : RelayState) (id : String) (payload : Obj) :
    (∀ cur, lookupKey s.clients id = some cur →
       lookupKey ((onState s id payload).1).clients id
         = some (jsSpread cur payload) ∧
       (∀ k v, objGet payload k = some v →
         objGet (jsSpread cur payload) k = some v) ∧
       (∀ k, objGet payload k = none →
         objGet (jsSpread cur payload) k = objGet cur k) ∧
       (∀ j, j ≠ id → lookupKey ((onState s id payload).1).clients j
         = lookupKey s.clients j) ∧
       (onState s id payload).2 = []) ∧
    (lookupKey s.clients id = none → onState s id payload = (s, [])) := by
  constructor
  · intro cur hcur
    have hstep : ((onState s id payload).1).clients
        = setKey s.clients id (jsSpread cur payload) := by
      simp [onState, hcur]
    refine ⟨?_, ?_, ?_, ?_, ?_⟩
    · rw [hstep, lookupKey_setKey_self]
    · intro k v hv
      rw [objGet_jsSpread, hv]
      rfl
    · intro k hk
      rw [objGet_jsSpread, hk]
      rfl
    · intro j hj
      rw [hstep, lookupKey_setKey_ne _ _ _ _ hj]
    · simp [onState, hcur]
  · intro h
    simp [onState, h]

theorem state_update_merge_spec_witness :
    lookupKey ((onState ⟨["A"], [("A", defaultPeer)], [("A", true)]⟩ "A"
        [("x", .num 7)]).1).clients "A"
      = some (jsSpread defaultPeer [("x", .num 7)]) ∧
    onState ⟨["A"], [("A", defaultPeer)], [("A", true)]⟩ "Z" [("x", .num 7)]
      = (⟨["A"], [("A", defaultPeer)], [("A", true)]⟩, []) :=
  ⟨((state_update_merge_spec ⟨["A"], [("A", defaultPeer)], [("A", true)]⟩ "A"
      [("x", .num 7)]).1 defaultPeer rfl).1,
   (state_update_merge_spec ⟨["A"], [("A", defaultPeer)], [("A", true)]⟩ "Z"
      [("x", .num 7)]).2 rfl⟩

/-- C9: onStateUpdate is idempotent under repeated identical input —
for a registered id, applying the same payload twice leaves every field
of every peer exactly as after applying it once. -/
theorem state_update_idempotent (s : RelayState) (id : String) (payload : Obj)
    (cur : Obj) (h : lookupKey s.clients id = some cur) :
    ∀ j k,
      ((lookupKey ((onState ((onState s id payload).1) id payload).1).clients j).bind
        (fun o => objGet o k))
      = ((lookupKey ((onState s id payload).1).clients j).bind
        (fun o => objGet o k)) := by
  intro j k
  have h1 : lookupKey ((onState s id payload).1).clients id
      = some (jsSpread cur payload) := by
    have hstep : ((onState s id payload).1).clients
        = setKey s.clients id (jsSpread cur payload) := by
      simp [onState, h]
    rw [hstep, lookupKey_setKey_self]
  set s1 : RelayState := (onState s id payload).1 with hs1
  have hstep2 : ((onState s1 id payload).1).clients
      = setKey s1.clients id (jsSpread (jsSpread cur payload) payload) := by
    simp [onState, h1]
  by_cases hj : j = id
  · subst hj
    rw [hstep2, lookupKey_setKey_self, h1]
    show (objGet (jsSpread (jsSpread cur payload) payload) k)
      = (objGet (jsSpread cur payload) k)
    simp only [objGet_jsSpread]
    cases hp : objGet payload k <;> rfl
  · rw [hstep2, lookupKey_setKey_ne _ _ _ _ hj]

theorem state_update_idempotent_witness :
    ((lookupKey ((onState ((onState ⟨["A"], [("A", defaultPeer)], [("A", true)]⟩
          "A" [("x", .num 7)]).1) "A" [("x", .num 7)]).1).clients "A").bind
      (fun o => objGet o "x"))
    = ((lookupKey ((onState ⟨["A"], [("A", defaultPeer)], [("A", true)]⟩
          "A" [("x", .num 7)]).1).clients "A").bind
      (fun o => objGet o "x")) :=
  state_update_idempotent ⟨["A"], [("A", defaultPeer)], [("A", true)]⟩ "A"
    [("x", .num 7)] defaultPeer rfl "A" "x"

/-- C10: an `id` field stored by a state update would override the
registry key in the `{id, ...state}` snapshot entry, so snapshot id
integrity is conditional: if no state update applied to peer p ever
carried an `id` field in its payload, then in every peers_state
snapshot the entry built from the registry pair of p carries `id` equal to
the registry key p. -/
theorem snapshot_id_integrity (ops : List Op) (p : String)
    (h : noIdUpdates p ops = true) :
    ∀ (i : Nat) (pr : String × Obj),
      ((run initState ops).clients)[i]? = some pr → pr.1 = p →
      (peersSnapshot (run initState ops))[i]?
        = some (.obj (pr.2 ++ [("id", .str p)])) ∧
      objGet (pr.2 ++ [("id", .str p)]) "id" = some (.str p) := by
  intro i pr hpr hp
  have hmem : pr ∈ (run initState ops).clients := List.getElem?_mem hpr
  have hnone : objGet pr.2 "id" = none := by
    refine run_noId ?_ h pr hmem hp
    intro q hq hqp
    simp [initState] at hq
  constructor
  · simp [peersSnapshot, List.getElem?_map, hpr, hp]
  · show lookupKey (pr.2 ++ [("id", JSVal.str p)]) "id" = some (.str p)
    rw [lookupKey_append]
    rw [show objGet pr.2 "id" = lookupKey pr.2 "id" from rfl] at hnone
    rw [hnone]
    rfl

theorem snapshot_id_integrity_witness :
    noIdUpdates "A" [Op.connect "A", Op.stateMsg "A" [("x", .num 7)]] = true ∧
    (peersSnapshot (run initState
        [Op.connect "A", Op.stateMsg "A" [("x", .num 7)]]))[0]?
      = some (.obj ((jsSpread defaultPeer [("x", .num 7)])
          ++ [("id", .str "A")])) :=
  ⟨by decide,
   (snapshot_id_integrity [Op.connect "A", Op.stateMsg "A" [("x", .num 7)]] "A"
     (by decide) 0 ("A", jsSpread defaultPeer [("x", .num 7)]) rfl rfl).1⟩

end Topdown
